import Mathlib

set_option allowUnsafeReducibility true
attribute [local semireducible] Rat.add Rat.mul Rat.sub Rat.inv Rat.ofScientific

/-!
Shallow embedding of the student expense tracker core (two source revisions:
src/ExpenseScreen.js and src/unnamed/part_000, both defining the same screen).

Modelling conventions:
* JS numbers that hold currency amounts are modelled as exact rationals;
  the concrete amounts appearing in the spec (multiples of 0.25) are exactly
  representable in binary floating point, so the rational model agrees with
  the JS float computation on them.
* JS strings are modelled as Lean strings; trimming and parseFloat are
  transcribed below over the character list of the string.
* Dates are modelled at millisecond resolution in a single time frame: a
  stored date string is parsed with a model of the ECMA-262 date-time string
  format into a millisecond timestamp, and the reference now is passed as a
  calendar date (the code normalises its week bounds to day boundaries and
  reads only calendar fields for the month).  A string outside the mandated
  grammar models the JS Invalid Date: every field access yields NaN and
  every comparison on it is false, so the classifier treats it as matching
  nothing.
* The totals object is modelled with the prototype chain of a fresh object
  literal: property reads fall back to the Object.prototype members, the
  truthiness test of the source sees inherited functions and the prototype
  object as truthy, and assignment to the __proto__ key runs the inherited
  Annex B accessor, which ignores a primitive value and creates no own
  property.
* The SQLite store is modelled as the list of expense rows together with the
  list of emitted store operations; the sequential-consistency contract of
  the spec lets the component state expenses stand for the store content.
-/

/-- The whitespace characters recognised by the JS trim and parseFloat
leading-whitespace skip (ASCII subset relevant to this program). -/
def isJsSpace (c : Char) : Bool :=
  c == ' ' || c == '\t' || c == '\n' || c == '\r' || c == '\x0b' || c == '\x0c'

/-- Trimming of a character list at both ends, as String.prototype.trim. -/
def jsTrimL (l : List Char) : List Char :=
  ((l.dropWhile isJsSpace).reverse.dropWhile isJsSpace).reverse

/-- String.prototype.trim on the Lean model of a JS string. -/
def jsTrim (s : String) : String :=
  String.mk (jsTrimL s.data)

/-- Numeric value of a list of decimal digit characters. -/
def digitsToNat (l : List Char) : Nat :=
  l.foldl (fun a c => 10 * a + (c.toNat - '0'.toNat)) 0

/-- Value of an integer part together with a fractional digit string. -/
def decimalValue (ip fp : List Char) : ℚ :=
  (digitsToNat ip : ℚ) + (digitsToNat fp : ℚ) / ((10 : ℚ) ^ fp.length)

/-- Parse the longest decimal-literal prefix of a character list, as
parseFloat does after the sign: digits, an optional dot, more digits.
Returns none when no digit is found, which models the NaN result.
(The model covers plain decimal literals, the only numerals this program
ever feeds to parseFloat; exponent forms and the Infinity literal are
outside the modelled grammar.) -/
def parseFloatCore (l : List Char) : Option ℚ :=
  let ip := l.takeWhile Char.isDigit
  let rest := l.dropWhile Char.isDigit
  match rest with
  | '.' :: rest2 =>
    let fp := rest2.takeWhile Char.isDigit
    if ip.isEmpty && fp.isEmpty then none else some (decimalValue ip fp)
  | _ => if ip.isEmpty then none else some (digitsToNat ip : ℚ)

/-- Model of the global parseFloat: skip leading whitespace, read an optional
sign, then the decimal prefix; none models NaN. -/
def jsParseFloat (s : String) : Option ℚ :=
  match s.data.dropWhile isJsSpace with
  | '-' :: r => (parseFloatCore r).map (fun q => -q)
  | '+' :: r => parseFloatCore r
  | l => parseFloatCore l

/-- A calendar date (year, month 1..12, day 1..31). -/
structure CalDate where
  year : Nat
  month : Nat
  day : Nat
deriving DecidableEq

/-- Gregorian leap-year rule. -/
def isLeapYear (y : Nat) : Bool :=
  (y % 4 == 0 && y % 100 != 0) || y % 400 == 0

/-- Number of days in a month of a given year. -/
def daysInMonth (y m : Nat) : Nat :=
  if m == 2 then (if isLeapYear y then 29 else 28)
  else if m == 4 || m == 6 || m == 9 || m == 11 then 30
  else 31

/-- The stored date format of the data model: the strict zero-padded
YYYY-MM-DD form naming a valid calendar day.  This is the only format the
program ever writes; a date string outside it is malformed in the sense of
the spec data model. -/
def parseStoredDate (s : String) : Option CalDate :=
  match s.data with
  | [y1, y2, y3, y4, '-', m1, m2, '-', d1, d2] =>
    if [y1, y2, y3, y4, m1, m2, d1, d2].all Char.isDigit then
      let y := digitsToNat [y1, y2, y3, y4]
      let m := digitsToNat [m1, m2]
      let d := digitsToNat [d1, d2]
      if 1 ≤ m ∧ m ≤ 12 ∧ 1 ≤ d ∧ d ≤ daysInMonth y m then some ⟨y, m, d⟩
      else none
    else none
  | _ => none

/-- Civil day number of a calendar date (days since 1970-01-01, the standard
days-from-civil computation). -/
def dayNumber (d : CalDate) : Int :=
  let y : Int := if d.month ≤ 2 then (d.year : Int) - 1 else (d.year : Int)
  let era : Int := Int.fdiv y 400
  let yoe : Int := y - era * 400
  let mp : Int := Int.emod ((d.month : Int) + 9) 12
  let doy : Int := Int.ediv (153 * mp + 2) 5 + (d.day : Int) - 1
  let doe : Int := yoe * 365 + Int.ediv yoe 4 - Int.ediv yoe 100 + doy
  era * 146097 + doe - 719468

/-- Date.prototype.getDay at day resolution: 0 is Sunday .. 6 is Saturday;
1970-01-01 (day number 0) was a Thursday. -/
def getDay (d : CalDate) : Int :=
  Int.emod (dayNumber d + 4) 7

/-- Calendar date containing a civil day number (the standard civil-from-days
computation, inverse of dayNumber; years clamp at 0, far before any date
this program can store). -/
def civilFromDays (z0 : Int) : CalDate :=
  let z : Int := z0 + 719468
  let era : Int := Int.fdiv z 146097
  let doe : Int := z - era * 146097
  let yoe : Int :=
    Int.ediv (doe - Int.ediv doe 1460 + Int.ediv doe 36524 - Int.ediv doe 146096) 365
  let y : Int := yoe + era * 400
  let doy : Int := doe - (365 * yoe + Int.ediv yoe 4 - Int.ediv yoe 100)
  let mp : Int := Int.ediv (5 * doy + 2) 153
  let d : Int := doy - Int.ediv (153 * mp + 2) 5 + 1
  let m : Int := if mp < 10 then mp + 3 else mp - 9
  if m ≤ 2 then ⟨(y + 1).toNat, m.toNat, d.toNat⟩ else ⟨y.toNat, m.toNat, d.toNat⟩

/-- Milliseconds field of the ECMA date-time format: a dot followed by
exactly three digits; otherwise nothing is consumed and the rest is left
for the offset. -/
def parseMilliseconds : List Char → Option (Nat × List Char)
  | '.' :: d1 :: d2 :: d3 :: rest =>
    if d1.isDigit && d2.isDigit && d3.isDigit then
      some (digitsToNat [d1, d2, d3], rest)
    else none
  | l => some (0, l)

/-- Timezone offset tail of the ECMA date-time format: empty (wall time in
the single modelled frame), Z, or a signed HH:mm offset; the value is the
offset in milliseconds to subtract from the wall-clock instant. -/
def parseOffset : List Char → Option Int
  | [] => some 0
  | ['Z'] => some 0
  | s :: rest =>
    if s == '+' || s == '-' then
      match rest with
      | [h1, h2, ':', n1, n2] =>
        if [h1, h2, n1, n2].all Char.isDigit then
          let hh := digitsToNat [h1, h2]
          let nn := digitsToNat [n1, n2]
          if hh ≤ 23 ∧ nn ≤ 59 then
            let off : Int := ((hh * 60 + nn) * 60000 : Nat)
            some (if s == '-' then -off else off)
          else none
        else none
      | _ => none
    else none

/-- Time-of-day part of the ECMA date-time format, after the T: HH:mm with
optional seconds and milliseconds, then the offset tail; yields the
millisecond offset of the instant within its day, minus the timezone
offset.  (The midnight form 24:00 is left outside the modelled grammar.) -/
def parseTimePart : List Char → Option Int
  | h1 :: h2 :: ':' :: n1 :: n2 :: rest =>
    if [h1, h2, n1, n2].all Char.isDigit then
      let hh := digitsToNat [h1, h2]
      let nn := digitsToNat [n1, n2]
      if hh ≤ 23 ∧ nn ≤ 59 then
        match rest with
        | ':' :: s1 :: s2 :: rest2 =>
          if s1.isDigit && s2.isDigit then
            let ss := digitsToNat [s1, s2]
            if ss ≤ 59 then
              match parseMilliseconds rest2 with
              | some (ms, rest3) =>
                (parseOffset rest3).map fun off =>
                  (((hh * 3600 + nn * 60 + ss) * 1000 + ms : Nat) : Int) - off
              | none => none
            else none
          else none
        | _ =>
          (parseOffset rest).map fun off =>
            (((hh * 3600 + nn * 60) * 1000 : Nat) : Int) - off
      else none
    else none
  | _ => none

/-- Model of new Date(s) on the character list of a string: the ECMA-262
date-time string format (YYYY, YYYY-MM or YYYY-MM-DD, optionally followed
by T and a time with optional seconds, milliseconds and offset), evaluated
at millisecond resolution in the single modelled frame.  Anything outside
this mandated grammar, including the engine-specific fallback formats,
models the JS Invalid Date and yields none. -/
def jsParseDateL : List Char → Option Int
  | y1 :: y2 :: y3 :: y4 :: rest =>
    if [y1, y2, y3, y4].all Char.isDigit then
      let y := digitsToNat [y1, y2, y3, y4]
      match rest with
      | [] => some (dayNumber ⟨y, 1, 1⟩ * 86400000)
      | 'T' :: rest2 =>
        (parseTimePart rest2).map fun tm => dayNumber ⟨y, 1, 1⟩ * 86400000 + tm
      | '-' :: m1 :: m2 :: rest2 =>
        if m1.isDigit && m2.isDigit then
          let m := digitsToNat [m1, m2]
          if 1 ≤ m ∧ m ≤ 12 then
            match rest2 with
            | [] => some (dayNumber ⟨y, m, 1⟩ * 86400000)
            | 'T' :: rest3 =>
              (parseTimePart rest3).map fun tm => dayNumber ⟨y, m, 1⟩ * 86400000 + tm
            | '-' :: d1 :: d2 :: rest3 =>
              if d1.isDigit && d2.isDigit then
                let d := digitsToNat [d1, d2]
                if 1 ≤ d ∧ d ≤ daysInMonth y m then
                  match rest3 with
                  | [] => some (dayNumber ⟨y, m, d⟩ * 86400000)
                  | 'T' :: rest4 =>
                    (parseTimePart rest4).map fun tm =>
                      dayNumber ⟨y, m, d⟩ * 86400000 + tm
                  | _ => none
                else none
              else none
            | _ => none
          else none
        else none
      | _ => none
    else none
  | _ => none

/-- new Date(s) at millisecond resolution in the single modelled frame. -/
def jsParseDate (s : String) : Option Int :=
  jsParseDateL s.data

/-- An expense row of the expenses table.  The date is optional so that rows
coming from a pre-upgrade table without the date column (the operational gap
the spec records) can be expressed; rows written by this program always carry
a date. -/
structure Expense where
  id : Nat
  amount : ℚ
  category : String
  note : Option String
  date : Option String
deriving DecidableEq

/-- The three filter windows. -/
inductive Window where
  | ALL
  | WEEK
  | MONTH
deriving DecidableEq

/-- The alerts the part_000 revision can raise from the save path validation
(Alert.alert calls); the ExpenseScreen.js revision raises none of them. -/
inductive AlertKind where
  | missingAmount
  | missingCategory
  | invalidAmount
deriving DecidableEq

/-- A store mutation issued through db.runAsync. -/
inductive StoreOp where
  | insert (amount : ℚ) (category : String) (note : Option String) (date : String)
  | update (id : Nat) (amount : ℚ) (category : String) (note : Option String) (date : String)
  | delete (id : Nat)
deriving DecidableEq

/-- The component state relevant to the core: the loaded expense rows, the
three raw form fields, the selected window and the optional editing id. -/
structure ScreenState where
  expenses : List Expense
  amount : String
  category : String
  note : String
  filter : Window
  editingId : Option Nat
deriving DecidableEq

/-- Result of a save attempt: the state after the handler (including the
reloaded expense list), the alerts raised and the store operations issued. -/
structure SaveResult where
  state : ScreenState
  alerts : List AlertKind
  ops : List StoreOp
deriving DecidableEq

/-- Effect of a store operation on the stored rows; an insert assigns the
next free id (AUTOINCREMENT) and the list is kept most-recent-first, the
order ORDER BY id DESC produces for fresh ids. -/
def applyOp (nextId : Nat) (expenses : List Expense) : StoreOp → List Expense
  | .insert a c n d => ⟨nextId, a, c, n, some d⟩ :: expenses
  | .update i a c n d =>
    expenses.map fun e =>
      if e.id == i then { e with amount := a, category := c, note := n, date := some d } else e
  | .delete i => expenses.filter fun e => !(e.id == i)

/-- The window classification and filtering of getFilteredExpenses (identical
in both source revisions): ALL returns the list unchanged; MONTH keeps the
records whose parsed date falls in the calendar year and month of today;
WEEK computes the Sunday at or before today (start of day) and the Saturday
six days later (end of day, 23:59:59.999) and keeps the records whose
parsed instant lies in that closed range.  A record with a missing or empty
date string is rejected by the falsy guard, and one whose date string does
not parse is an Invalid Date whose NaN fields and comparisons match
nothing.  The source reads expenses and the selected filter from component
state and obtains today from the ambient clock; they are explicit arguments
here, the reference now as a calendar date, since the week bounds are
normalised to day boundaries and MONTH reads only calendar fields. -/
def getFilteredExpenses (expenses : List Expense) (filter : Window) (today : CalDate) :
    List Expense :=
  match filter with
  | .ALL => expenses
  | .MONTH =>
    expenses.filter fun exp =>
      match exp.date with
      | none => false
      | some s =>
        if s = "" then false
        else
          match jsParseDate s with
          | none => false
          | some t =>
            let d := civilFromDays (Int.fdiv t 86400000)
            d.year == today.year && d.month == today.month
  | .WEEK =>
    let startOfWeek : Int := (dayNumber today - getDay today) * 86400000
    let endOfWeek : Int := startOfWeek + 6 * 86400000 + 86399999
    expenses.filter fun exp =>
      match exp.date with
      | none => false
      | some s =>
        if s = "" then false
        else
          match jsParseDate s with
          | none => false
          | some t => decide (startOfWeek ≤ t) && decide (t ≤ endOfWeek)

/-- The reduce computing the overall total of the filtered records. -/
def totalSpending (filteredExpenses : List Expense) : ℚ :=
  filteredExpenses.foldl (fun acc exp => acc + exp.amount) 0

/-- The bucket key a record contributes to: the stored category string, or
the reserved Uncategorized bucket when the stored category is empty (the
falsy fallback in the source). -/
def bucketOf (exp : Expense) : String :=
  if exp.category = "" then "Uncategorized" else exp.category

/-- A JS value that can sit in a bucket of the totals object: a number, a
string (produced when the += falls back to concatenation), or NaN. -/
inductive JsValue where
  | num (q : ℚ)
  | str (s : String)
  | nan
deriving DecidableEq

/-- The function-valued properties of Object.prototype (ECMA-262, with the
Annex B legacy accessors counted as function-valued reads), which a fresh
object literal inherits. -/
def protoFnNames : List String :=
  ["constructor", "hasOwnProperty", "isPrototypeOf", "propertyIsEnumerable",
   "toLocaleString", "toString", "valueOf",
   "__defineGetter__", "__defineSetter__", "__lookupGetter__", "__lookupSetter__"]

/-- Whether a key collides with an Object.prototype property: the __proto__
accessor or one of the inherited functions. -/
def isProtoProperty (key : String) : Bool :=
  key == "__proto__" || protoFnNames.contains key

/-- Result of reading a property of the totals object: an own value, an
inherited Object.prototype function, the prototype object itself (read
through the __proto__ accessor), or undefined. -/
inductive JsRead where
  | undefined
  | own (v : JsValue)
  | inheritedFn (name : String)
  | protoObject

/-- The totals object: its own enumerable properties in creation order. -/
abbrev JsObject := List (String × JsValue)

/-- Decimal text of a number for string concatenation.  The engine prints
the shortest round-trip decimal of the float; the exact digits never matter
to any statement below, so the exact-rational rendering stands in. -/
def jsNumToString (q : ℚ) : String :=
  toString q

/-- Source text of an inherited native function, as the major engines print
it. -/
def inheritedFnText (name : String) : String :=
  "function " ++ name ++ "() \x7b [native code] \x7d"

/-- Property read: own properties first, then the prototype chain of a
fresh object literal. -/
def getProp (o : JsObject) (key : String) : JsRead :=
  match o.find? (fun p => p.1 == key) with
  | some p => .own p.2
  | none =>
    if key == "__proto__" then .protoObject
    else if protoFnNames.contains key then .inheritedFn key
    else .undefined

/-- JS truthiness of a property read: 0, NaN, the empty string and
undefined are falsy; functions and objects are truthy. -/
def truthy : JsRead → Bool
  | .undefined => false
  | .own (.num q) => !(q == 0)
  | .own (.str s) => !(s == "")
  | .own .nan => false
  | .inheritedFn _ => true
  | .protoObject => true

/-- Property assignment: writing __proto__ runs the inherited Annex B
accessor, which ignores a primitive value and creates no own property; any
other key creates or overwrites an own property, new keys appended (the
creation order Object.entries exposes). -/
def setProp (o : JsObject) (key : String) (v : JsValue) : JsObject :=
  if key == "__proto__" then o
  else if o.any (fun p => p.1 == key) then
    o.map fun p => if p.1 == key then (p.1, v) else p
  else o ++ [(key, v)]

/-- The JS + of a read bucket and a number: numbers add; a string, an
inherited function or the prototype object concatenate their text with the
number; undefined and NaN give NaN. -/
def jsAdd (r : JsRead) (amt : ℚ) : JsValue :=
  match r with
  | .undefined => .nan
  | .own (.num q) => .num (q + amt)
  | .own (.str s) => .str (s ++ jsNumToString amt)
  | .own .nan => .nan
  | .inheritedFn name => .str (inheritedFnText name ++ jsNumToString amt)
  | .protoObject => .str ("[object Object]" ++ jsNumToString amt)

/-- One step of the categoryTotals forEach, with the object semantics of the
source: when the bucket reads falsy (reads go through the prototype chain),
assign 0 to it; then read again and assign the JS sum of the read and the
amount. -/
def addToCategory (m : JsObject) (cat : String) (amt : ℚ) : JsObject :=
  let m1 := if truthy (getProp m cat) then m else setProp m cat (.num 0)
  setProp m1 cat (jsAdd (getProp m1 cat) amt)

/-- The categoryTotals object built by the forEach over the filtered
records, starting from a fresh object literal. -/
def categoryTotals (filteredExpenses : List Expense) : JsObject :=
  filteredExpenses.foldl (fun m exp => addToCategory m (bucketOf exp) exp.amount) []

/-- Reading a numeric bucket total out of the object: the own numeric value
when one exists, 0 otherwise (bucket absent or holding non-numeric
content). -/
def byCategoryAmount (m : JsObject) (c : String) : ℚ :=
  match m.find? (fun p => p.1 == c) with
  | some (_, .num q) => q
  | _ => 0

/-- Numeric contribution of a bucket value; a non-numeric bucket carries no
amount. -/
def ratValue : JsValue → ℚ
  | .num q => q
  | .str _ => 0
  | .nan => 0

/-- Sum of the numeric bucket totals of the object. -/
def sumValues (m : JsObject) : ℚ :=
  (m.map fun p => ratValue p.2).sum

/-- Whether a string is an array-index property key in the sense of
ECMA-262: the canonical decimal form (no leading zero except the single
digit 0) of an integer below 2^32 - 1. -/
def isArrayIndexKey (s : String) : Bool :=
  match s.data with
  | [] => false
  | c :: rest =>
    c.isDigit && rest.all Char.isDigit && (rest.isEmpty || !(c == '0'))
      && digitsToNat (c :: rest) < 4294967295

/-- Numeric value of an array-index key. -/
def keyNumber (s : String) : Nat :=
  digitsToNat s.data

/-- Insertion into a list of entries sorted by ascending numeric key. -/
def insertIndexKey {α : Type} (p : String × α) : List (String × α) → List (String × α)
  | [] => [p]
  | q :: rest =>
    if keyNumber p.1 ≤ keyNumber q.1 then p :: q :: rest
    else q :: insertIndexKey p rest

/-- Sort entries by ascending numeric key. -/
def sortIndexKeys {α : Type} (l : List (String × α)) : List (String × α) :=
  l.foldr insertIndexKey []

/-- The entry sequence Object.entries produces from an ordinary JS object,
own enumerable properties only: per ECMA-262 OrdinaryOwnPropertyKeys, the
array-index keys come first in ascending numeric order, then the remaining
string keys in property creation order. -/
def jsObjectEntries {α : Type} (m : List (String × α)) : List (String × α) :=
  sortIndexKeys (m.filter fun p => isArrayIndexKey p.1)
    ++ m.filter fun p => !isArrayIndexKey p.1

/-- The order in which distinct bucket keys first appear in a key sequence. -/
def firstAppearanceOrder (cats : List String) : List String :=
  cats.foldl (fun acc c => if c ∈ acc then acc else acc ++ [c]) []

/-- The arithmetic content of one accumulation step: add the amount into the
bucket of the given key, creating the bucket at the end on first sight.
This is the view of addToCategory on keys that do not collide with
Object.prototype properties, connected to it by the lifting lemmas below. -/
def addAmount (m : List (String × ℚ)) (cat : String) (amt : ℚ) :
    List (String × ℚ) :=
  if m.any (fun p => p.1 == cat) then
    m.map fun p => if p.1 == cat then (p.1, p.2 + amt) else p
  else
    m ++ [(cat, amt)]

/-- The arithmetic view of categoryTotals. -/
def amountTotals (filteredExpenses : List Expense) : List (String × ℚ) :=
  filteredExpenses.foldl (fun m exp => addAmount m (bucketOf exp) exp.amount) []

/-- Reading a bucket total out of the arithmetic view; 0 when absent. -/
def lookupAmount (m : List (String × ℚ)) (c : String) : ℚ :=
  match m.find? (fun p => p.1 == c) with
  | some p => p.2
  | none => 0

/-- Sum of the bucket values of the arithmetic view. -/
def sumAmounts (m : List (String × ℚ)) : ℚ :=
  (m.map Prod.snd).sum

/-- A rational bucket list as a JS object of numeric own properties. -/
def liftNum (m : List (String × ℚ)) : JsObject :=
  m.map fun p => (p.1, JsValue.num p.2)

/-- The validation sequence of the part_000 save handler, as a pure
function: a blank amount field, then a blank category field, then an
unparseable or nonpositive amount are rejected with the matching alert;
otherwise the parsed amount and the trimmed category are produced.
(The ExpenseScreen.js revision runs the same parse and trim checks without
the blank-amount precheck and without any alert.) -/
def validate (amountText categoryText : String) : Except AlertKind (ℚ × String) :=
  if jsTrim amountText = "" then .error .missingAmount
  else if jsTrim categoryText = "" then .error .missingCategory
  else
    match jsParseFloat amountText with
    | none => .error .invalidAmount
    | some amountNumber =>
      if amountNumber ≤ 0 then .error .invalidAmount
      else .ok (amountNumber, jsTrim categoryText)

/-- Whether a record carries a date string the platform Date parser accepts. -/
def hasValidDate (e : Expense) : Bool :=
  match e.date with
  | none => false
  | some s => (jsParseDate s).isSome

namespace ExpenseScreen

/-- The save handler of src/ExpenseScreen.js: parseFloat the amount field and
silently return when it is NaN or nonpositive; silently return when the
trimmed category is empty; otherwise keep the date of the record being
edited (falling back to today when it is absent or empty) and issue an
INSERT when not editing or an UPDATE of the edited id, then clear the form
and reload.  Validation failures raise no alert in this revision.  The
ambient today string and the next AUTOINCREMENT id are explicit arguments. -/
def handleSaveExpense (st : ScreenState) (todayStr : String) (nextId : Nat) : SaveResult :=
  match jsParseFloat st.amount with
  | none => { state := st, alerts := [], ops := [] }
  | some amountNumber =>
    if amountNumber ≤ 0 then { state := st, alerts := [], ops := [] }
    else
      let trimmedCategory := jsTrim st.category
      let trimmedNote := jsTrim st.note
      if trimmedCategory = "" then { state := st, alerts := [], ops := [] }
      else
        let existing := st.expenses.find? fun e => some e.id == st.editingId
        let dateToUse : String :=
          match existing with
          | some e =>
            match e.date with
            | some ds => if ds = "" then todayStr else ds
            | none => todayStr
          | none => todayStr
        let noteValue : Option String := if trimmedNote = "" then none else some trimmedNote
        let op : StoreOp :=
          match st.editingId with
          | none => .insert amountNumber trimmedCategory noteValue dateToUse
          | some i => .update i amountNumber trimmedCategory noteValue dateToUse
        { state :=
            { st with
              expenses := applyOp nextId st.expenses op
              amount := ""
              category := ""
              note := ""
              editingId := none }
          alerts := []
          ops := [op] }

/-- The delete handler of src/ExpenseScreen.js: issue the DELETE and reload;
the editing state and the form fields are not touched. -/
def deleteExpense (st : ScreenState) (i : Nat) : ScreenState × List StoreOp :=
  ({ st with expenses := st.expenses.filter fun e => !(e.id == i) }, [.delete i])

end ExpenseScreen

namespace Part000

/-- The save handler of src/unnamed/part_000: alert on a blank amount field,
then on a blank category field, then on an unparseable or nonpositive
amount; otherwise keep the date of the record being edited (falling back to
today when it is absent or empty) and issue an INSERT when not editing or an
UPDATE of the edited id, then clear the form and reload. -/
def handleSaveExpense (st : ScreenState) (todayStr : String) (nextId : Nat) : SaveResult :=
  if jsTrim st.amount = "" then { state := st, alerts := [.missingAmount], ops := [] }
  else if jsTrim st.category = "" then { state := st, alerts := [.missingCategory], ops := [] }
  else
    match jsParseFloat st.amount with
    | none => { state := st, alerts := [.invalidAmount], ops := [] }
    | some amountNumber =>
      if amountNumber ≤ 0 then { state := st, alerts := [.invalidAmount], ops := [] }
      else
        let trimmedCategory := jsTrim st.category
        let trimmedNote := jsTrim st.note
        let existing := st.expenses.find? fun e => some e.id == st.editingId
        let dateToUse : String :=
          match existing with
          | some e =>
            match e.date with
            | some ds => if ds = "" then todayStr else ds
            | none => todayStr
          | none => todayStr
        let noteValue : Option String := if trimmedNote = "" then none else some trimmedNote
        let op : StoreOp :=
          match st.editingId with
          | none => .insert amountNumber trimmedCategory noteValue dateToUse
          | some i => .update i amountNumber trimmedCategory noteValue dateToUse
        { state :=
            { st with
              expenses := applyOp nextId st.expenses op
              amount := ""
              category := ""
              note := ""
              editingId := none }
          alerts := []
          ops := [op] }

/-- The delete handler of src/unnamed/part_000: when the deleted id is the
one being edited, leave edit mode and clear the form first; then issue the
DELETE and reload. -/
def deleteExpense (st : ScreenState) (i : Nat) : ScreenState × List StoreOp :=
  let st1 :=
    if st.editingId == some i then
      { st with editingId := none, amount := "", category := "", note := "" }
    else st
  ({ st1 with expenses := st1.expenses.filter fun e => !(e.id == i) }, [.delete i])

end Part000

/-! ### Helper lemmas -/

/-- A dropWhile run whose residue consists only of matching elements is empty. -/
theorem dropWhile_eq_nil_of_all_mem {l : List Char} {p : Char → Bool}
    (h : ∀ x ∈ l.dropWhile p, p x = true) : l.dropWhile p = [] := by
  induction l with
  | nil => rfl
  | cons c t ih =>
    by_cases hc : p c = true
    · rw [List.dropWhile_cons_of_pos hc] at h ⊢
      exact ih h
    · rw [List.dropWhile_cons_of_neg hc] at h
      exact absurd (h c (List.mem_cons_self c t)) hc

/-- A string whose trim is empty is all whitespace, so the leading
whitespace skip consumes it entirely. -/
theorem dropWhile_eq_nil_of_jsTrim_eq_empty {s : String} (h : jsTrim s = "") :
    s.data.dropWhile isJsSpace = [] := by
  have hL : jsTrimL s.data = [] := congrArg String.data h
  unfold jsTrimL at hL
  rw [List.reverse_eq_nil_iff] at hL
  have hall : ∀ x ∈ (s.data.dropWhile isJsSpace).reverse, isJsSpace x = true :=
    List.dropWhile_eq_nil_iff.mp hL
  exact dropWhile_eq_nil_of_all_mem fun x hx =>
    hall x (List.mem_reverse.mpr hx)

/-- parseFloat of a blank string is NaN. -/
theorem jsParseFloat_eq_none_of_jsTrim_eq_empty {s : String} (h : jsTrim s = "") :
    jsParseFloat s = none := by
  unfold jsParseFloat
  rw [dropWhile_eq_nil_of_jsTrim_eq_empty h]
  rfl

/-- A string parseFloat accepts does not trim to the empty string. -/
theorem jsTrim_ne_empty_of_jsParseFloat_eq_some {s : String} {q : ℚ}
    (h : jsParseFloat s = some q) : jsTrim s ≠ "" := by
  intro he
  rw [jsParseFloat_eq_none_of_jsTrim_eq_empty he] at h
  exact Option.noConfusion h

/-! ### Claim theorems -/

/-- The reference state and records of the window classification test case. -/
def refMarch15 : CalDate := ⟨2024, 3, 15⟩

def recMarch10 : Expense := ⟨1, 10, "Food", none, some "2024-03-10"⟩

def recMarch09 : Expense := ⟨2, 11, "Food", none, some "2024-03-09"⟩

def recFeb29 : Expense := ⟨3, 12, "Food", none, some "2024-02-29"⟩

/-- Claim C2: with reference date 2024-03-15 and the Sunday to Saturday week
containing it, the record dated 2024-03-10 is classified into WEEK and MONTH,
the record dated 2024-03-09 into MONTH but not WEEK, the record dated
2024-02-29 into neither, and all three into ALL. -/
theorem window_classification_march15 :
    getFilteredExpenses [recMarch10, recMarch09, recFeb29] .WEEK refMarch15 = [recMarch10]
    ∧ getFilteredExpenses [recMarch10, recMarch09, recFeb29] .MONTH refMarch15
        = [recMarch10, recMarch09]
    ∧ getFilteredExpenses [recMarch10, recMarch09, recFeb29] .ALL refMarch15
        = [recMarch10, recMarch09, recFeb29] := by
  refine ⟨by decide, by decide, rfl⟩

/-- The failing input of claim C1: an unparseable amount text in the
ExpenseScreen.js revision. -/
def silentState : ScreenState := ⟨[], "abc", "Food", "", .ALL, none⟩

/-- Claim C1 (failing-path evaluation): the amount text abc fails validation
with InvalidAmount, yet the ExpenseScreen.js save handler returns with the
state unchanged, no alert and no store operation: this validation failure
path ends silently, against the specified always-report behaviour that the
part_000 revision implements. -/
theorem silent_validation_failure :
    validate silentState.amount silentState.category = .error .invalidAmount
    ∧ ExpenseScreen.handleSaveExpense silentState "2024-03-15" 1
        = ⟨silentState, [], []⟩
    ∧ Part000.handleSaveExpense silentState "2024-03-15" 1
        = ⟨silentState, [.invalidAmount], []⟩ :=
  ⟨rfl, by decide, by decide⟩

/-- Claim C4: deleting the record currently being edited leaves edit mode and
clears the form; deleting any other record, or deleting while idle, leaves
the editing state and the form untouched (part_000 revision, the one whose
delete handler manages the edit state machine). -/
theorem delete_edit_transition (st : ScreenState) (i : Nat) :
    (st.editingId = some i →
      (Part000.deleteExpense st i).1.editingId = none
      ∧ (Part000.deleteExpense st i).1.amount = ""
      ∧ (Part000.deleteExpense st i).1.category = ""
      ∧ (Part000.deleteExpense st i).1.note = "")
    ∧ (st.editingId ≠ some i →
      (Part000.deleteExpense st i).1.editingId = st.editingId
      ∧ (Part000.deleteExpense st i).1.amount = st.amount
      ∧ (Part000.deleteExpense st i).1.category = st.category
      ∧ (Part000.deleteExpense st i).1.note = st.note) := by
  unfold Part000.deleteExpense
  by_cases h : st.editingId = some i <;> simp [h]

/-- Witness for claim C4 at a concrete editing state. -/
theorem delete_edit_transition_w :
    (Part000.deleteExpense ⟨[], "5", "x", "", .ALL, some 3⟩ 3).1.editingId = none :=
  ((delete_edit_transition ⟨[], "5", "x", "", .ALL, some 3⟩ 3).1 rfl).1

/-- Claim C5: a record whose date field is absent or fails to parse as a
calendar date is excluded from the WEEK and MONTH windows, is included in
ALL, and the classifier (a total function) raises nothing on it. -/
theorem invalid_date_excluded (expenses : List Expense) (today : CalDate)
    (e : Expense) (hbad : hasValidDate e = false) (hmem : e ∈ expenses) :
    e ∉ getFilteredExpenses expenses .WEEK today
    ∧ e ∉ getFilteredExpenses expenses .MONTH today
    ∧ e ∈ getFilteredExpenses expenses .ALL today := by
  unfold hasValidDate at hbad
  refine ⟨fun hin => ?_, fun hin => ?_, hmem⟩ <;>
    (simp only [getFilteredExpenses] at hin
     have hp := (List.mem_filter.mp hin).2
     cases hd : e.date with
     | none =>
       simp only [hd] at hp
       exact Bool.noConfusion hp
     | some s =>
       simp only [hd] at hp hbad
       cases hps : jsParseDate s with
       | some d =>
         simp only [hps, Option.isSome_some] at hbad
         exact Bool.noConfusion hbad
       | none =>
         simp only [hps] at hp
         simp at hp)

/-- Witness for claim C5: a record whose stored date string is not a date. -/
theorem invalid_date_excluded_w :
    (⟨7, 5, "Food", none, some "yesterday"⟩ : Expense)
        ∉ getFilteredExpenses [⟨7, 5, "Food", none, some "yesterday"⟩] .WEEK ⟨2024, 3, 15⟩
    ∧ (⟨7, 5, "Food", none, some "yesterday"⟩ : Expense)
        ∉ getFilteredExpenses [⟨7, 5, "Food", none, some "yesterday"⟩] .MONTH ⟨2024, 3, 15⟩
    ∧ (⟨7, 5, "Food", none, some "yesterday"⟩ : Expense)
        ∈ getFilteredExpenses [⟨7, 5, "Food", none, some "yesterday"⟩] .ALL ⟨2024, 3, 15⟩ :=
  invalid_date_excluded _ _ _ (by decide) (by decide)

/-- Claim C7: when the amount text parses to a positive number and the
category text is non-blank after trimming, validation succeeds with the
parsed amount and the trimmed category. -/
theorem validate_accepts (amountText categoryText : String) (q : ℚ)
    (hp : jsParseFloat amountText = some q) (hq : 0 < q)
    (hc : jsTrim categoryText ≠ "") :
    validate amountText categoryText = .ok (q, jsTrim categoryText) := by
  unfold validate
  rw [if_neg (jsTrim_ne_empty_of_jsParseFloat_eq_some hp), if_neg hc]
  simp only [hp]
  rw [if_neg (not_le.mpr hq)]

/-- Witness for claim C7 at the concrete pair 12.50 and a padded category. -/
theorem validate_accepts_w :
    validate "12.50" " Food " = .ok (12.50, jsTrim " Food ") :=
  validate_accepts "12.50" " Food " 12.50 (by decide) (by decide) (by decide)

/-- Claim C8: a save attempt whose input fails validation issues no store
operation in either revision, leaving the persisted record set unchanged. -/
theorem no_store_on_validation_failure (st : ScreenState) (todayStr : String)
    (nextId : Nat) (err : AlertKind)
    (h : validate st.amount st.category = .error err) :
    (ExpenseScreen.handleSaveExpense st todayStr nextId).ops = []
    ∧ (ExpenseScreen.handleSaveExpense st todayStr nextId).state.expenses = st.expenses
    ∧ (Part000.handleSaveExpense st todayStr nextId).ops = []
    ∧ (Part000.handleSaveExpense st todayStr nextId).state.expenses = st.expenses := by
  unfold validate at h
  by_cases h1 : jsTrim st.amount = ""
  · have hp := jsParseFloat_eq_none_of_jsTrim_eq_empty h1
    unfold ExpenseScreen.handleSaveExpense Part000.handleSaveExpense
    simp [hp, h1]
  · rw [if_neg h1] at h
    by_cases h2 : jsTrim st.category = ""
    · unfold ExpenseScreen.handleSaveExpense Part000.handleSaveExpense
      cases hp : jsParseFloat st.amount with
      | none => simp [hp, h1, h2]
      | some q =>
        by_cases hq : q ≤ 0
        · simp [hp, h1, h2, hq]
        · simp [hp, h1, h2, hq]
    · rw [if_neg h2] at h
      cases hp : jsParseFloat st.amount with
      | none =>
        unfold ExpenseScreen.handleSaveExpense Part000.handleSaveExpense
        simp [hp, h1, h2]
      | some q =>
        simp only [hp] at h
        by_cases hq : q ≤ 0
        · unfold ExpenseScreen.handleSaveExpense Part000.handleSaveExpense
          simp [hp, h1, h2, hq]
        · rw [if_neg hq] at h
          exact Except.noConfusion h

/-- Witness for claim C8: a nonpositive amount text leaves the loaded record
set untouched and issues nothing. -/
theorem no_store_on_validation_failure_w :
    (ExpenseScreen.handleSaveExpense ⟨[⟨1, 5, "Food", none, some "2024-03-01"⟩], "-4", "Food", "", .ALL, none⟩ "2024-03-15" 2).ops = []
    ∧ (ExpenseScreen.handleSaveExpense ⟨[⟨1, 5, "Food", none, some "2024-03-01"⟩], "-4", "Food", "", .ALL, none⟩ "2024-03-15" 2).state.expenses = [⟨1, 5, "Food", none, some "2024-03-01"⟩]
    ∧ (Part000.handleSaveExpense ⟨[⟨1, 5, "Food", none, some "2024-03-01"⟩], "-4", "Food", "", .ALL, none⟩ "2024-03-15" 2).ops = []
    ∧ (Part000.handleSaveExpense ⟨[⟨1, 5, "Food", none, some "2024-03-01"⟩], "-4", "Food", "", .ALL, none⟩ "2024-03-15" 2).state.expenses = [⟨1, 5, "Food", none, some "2024-03-01"⟩] :=
  no_store_on_validation_failure _ "2024-03-15" 2 .invalidAmount rfl

/-- After an UPDATE of id i carrying date dt, every stored record with id i
carries date dt. -/
theorem applyOp_update_date (l : List Expense) (nextId i : Nat) (a : ℚ)
    (c : String) (n : Option String) (dt : String) :
    ∀ r ∈ applyOp nextId l (.update i a c n dt), r.id = i → r.date = some dt := by
  intro r hr hid
  simp only [applyOp, List.mem_map] at hr
  obtain ⟨x, _, hfx⟩ := hr
  by_cases h : x.id = i
  · simp only [h, beq_self_eq_true, if_true] at hfx
    rw [← hfx]
  · have hne : (x.id == i) = false := beq_eq_false_iff_ne.mpr h
    simp only [hne, Bool.false_eq_true, if_false] at hfx
    rw [← hfx] at hid
    exact absurd hid h

/-- In a record list with no duplicate ids, every record bearing the id of a
member record e agrees with e on the date field. -/
theorem date_of_id_of_nodup (l : List Expense) (eid : Nat) (e : Expense)
    (d : String) (hmem : e ∈ l) (hid : e.id = eid) (hdate : e.date = some d)
    (hnd : (l.map Expense.id).Nodup) :
    ∀ r ∈ l, r.id = eid → r.date = some d := by
  intro r hr hrid
  have : r = e := List.inj_on_of_nodup_map hnd hr hmem (by rw [hrid, hid])
  rw [this, hdate]

/-- Pointwise date preservation on records with a given id, phrased as the
boolean check on the filtered list. -/
theorem all_filter_date (l : List Expense) (eid : Nat) (d : String)
    (h : ∀ r ∈ l, r.id = eid → r.date = some d) :
    ((l.filter fun r => r.id == eid).all fun r => r.date == some d) = true := by
  rw [List.all_eq_true]
  intro r hr
  obtain ⟨hm, hp⟩ := List.mem_filter.mp hr
  simp [h r hm (by simpa using hp)]

/-- Claim C3: a save performed while editing a stored record whose date is
present and non-empty leaves every stored record with that id carrying the
same date afterwards, in both revisions; only amount, category and note can
change. -/
theorem edit_preserves_date (st : ScreenState) (todayStr : String) (nextId : Nat)
    (eid : Nat) (e : Expense) (d : String)
    (h1 : st.editingId = some eid)
    (h2 : st.expenses.find? (fun x => some x.id == st.editingId) = some e)
    (h3 : e.date = some d) (h4 : d ≠ "")
    (h5 : (st.expenses.map Expense.id).Nodup) :
    (((ExpenseScreen.handleSaveExpense st todayStr nextId).state.expenses.filter
        fun r => r.id == eid).all fun r => r.date == some d) = true
    ∧ (((Part000.handleSaveExpense st todayStr nextId).state.expenses.filter
        fun r => r.id == eid).all fun r => r.date == some d) = true := by
  have hmem := List.mem_of_find?_eq_some h2
  have heid : e.id = eid := by
    have hpred := List.find?_some h2
    rw [h1] at hpred
    simpa using hpred
  have hbase := date_of_id_of_nodup st.expenses eid e d hmem heid h3 h5
  rw [h1] at h2
  constructor
  · unfold ExpenseScreen.handleSaveExpense
    cases hp : jsParseFloat st.amount with
    | none => exact all_filter_date _ _ _ hbase
    | some q =>
      dsimp only
      by_cases hq : q ≤ 0
      · rw [if_pos hq]
        exact all_filter_date _ _ _ hbase
      · rw [if_neg hq]
        by_cases hc : jsTrim st.category = ""
        · rw [if_pos hc]
          exact all_filter_date _ _ _ hbase
        · rw [if_neg hc]
          simp only [h1, h2, h3]
          rw [if_neg h4]
          exact all_filter_date _ _ _ (applyOp_update_date _ _ _ _ _ _ _)
  · unfold Part000.handleSaveExpense
    by_cases hA : jsTrim st.amount = ""
    · rw [if_pos hA]
      exact all_filter_date _ _ _ hbase
    · rw [if_neg hA]
      by_cases hc : jsTrim st.category = ""
      · rw [if_pos hc]
        exact all_filter_date _ _ _ hbase
      · rw [if_neg hc]
        cases hp : jsParseFloat st.amount with
        | none => exact all_filter_date _ _ _ hbase
        | some q =>
          dsimp only
          by_cases hq : q ≤ 0
          · rw [if_pos hq]
            exact all_filter_date _ _ _ hbase
          · rw [if_neg hq]
            simp only [h1, h2, h3]
            rw [if_neg h4]
            exact all_filter_date _ _ _ (applyOp_update_date _ _ _ _ _ _ _)

/-- Witness for claim C3: editing record 1 with new amount and category
keeps its stored date 2024-03-10. -/
theorem edit_preserves_date_w :
    (((ExpenseScreen.handleSaveExpense ⟨[⟨1, 5, "Food", none, some "2024-03-10"⟩], "7.25", "Lunch", "", .ALL, some 1⟩ "2024-03-15" 2).state.expenses.filter
        fun r => r.id == 1).all fun r => r.date == some "2024-03-10") = true
    ∧ (((Part000.handleSaveExpense ⟨[⟨1, 5, "Food", none, some "2024-03-10"⟩], "7.25", "Lunch", "", .ALL, some 1⟩ "2024-03-15" 2).state.expenses.filter
        fun r => r.id == 1).all fun r => r.date == some "2024-03-10") = true :=
  edit_preserves_date _ "2024-03-15" 2 1 ⟨1, 5, "Food", none, some "2024-03-10"⟩
    "2024-03-10" rfl (by decide) rfl (by decide) (by decide)

/-! ### Aggregation lemmas -/

/-- The reduce of totalSpending computes the sum of the amounts. -/
theorem totalSpending_eq_sum (l : List Expense) :
    totalSpending l = (l.map Expense.amount).sum := by
  suffices h : ∀ a : ℚ,
      l.foldl (fun acc exp => acc + exp.amount) a = a + (l.map Expense.amount).sum by
    simpa [totalSpending] using h 0
  induction l with
  | nil => intro a; simp
  | cons e t ih =>
    intro a
    rw [List.foldl_cons, ih, List.map_cons, List.sum_cons]
    ring

/-- Every key of the accumulated mapping comes from the old mapping or is
the inserted key. -/
theorem mem_addAmount_key (m : List (String × ℚ)) (cat : String) (amt : ℚ)
    (p : String × ℚ) (hp : p ∈ addAmount m cat amt) :
    p.1 ∈ m.map Prod.fst ∨ p.1 = cat := by
  unfold addAmount at hp
  by_cases h : m.any (fun p => p.1 == cat) = true
  · rw [if_pos h] at hp
    obtain ⟨x, hx, hfx⟩ := List.mem_map.mp hp
    left
    have hx1 : p.1 = x.1 := by
      by_cases hxc : (x.1 == cat) = true <;> simp [hxc] at hfx <;> rw [← hfx]
    exact hx1 ▸ List.mem_map.mpr ⟨x, hx, rfl⟩
  · rw [if_neg h] at hp
    rcases List.mem_append.mp hp with h1 | h2
    · exact Or.inl (List.mem_map.mpr ⟨p, h1, rfl⟩)
    · right
      have hpe : p = (cat, amt) := by simpa using h2
      rw [hpe]

/-- The key list after one accumulation step: unchanged when the key is
already present, the key appended otherwise. -/
theorem addAmount_map_fst (m : List (String × ℚ)) (cat : String) (amt : ℚ) :
    (addAmount m cat amt).map Prod.fst =
      if cat ∈ m.map Prod.fst then m.map Prod.fst else m.map Prod.fst ++ [cat] := by
  unfold addAmount
  by_cases h : cat ∈ m.map Prod.fst
  · obtain ⟨p, hp, he⟩ := List.mem_map.mp h
    have hany : m.any (fun p => p.1 == cat) = true :=
      List.any_eq_true.mpr ⟨p, hp, beq_iff_eq.mpr he⟩
    simp only [hany, if_true, if_pos h]
    rw [List.map_map]
    rw [List.map_congr_left (g := Prod.fst) ?_]
    intro q _
    by_cases hqc : q.1 = cat <;> simp [hqc]
  · have hany : m.any (fun p => p.1 == cat) = false := by
      rw [Bool.eq_false_iff]
      intro hc
      obtain ⟨p, hp, hb⟩ := List.any_eq_true.mp hc
      exact h (List.mem_map.mpr ⟨p, hp, beq_iff_eq.mp hb⟩)
    simp [hany, h, List.map_append]

/-- The key list of a mapping stays duplicate free across an accumulation
step. -/
theorem addAmount_nodup (m : List (String × ℚ)) (cat : String) (amt : ℚ)
    (h : (m.map Prod.fst).Nodup) :
    ((addAmount m cat amt).map Prod.fst).Nodup := by
  rw [addAmount_map_fst]
  by_cases hc : cat ∈ m.map Prod.fst
  · rw [if_pos hc]
    exact h
  · rw [if_neg hc]
    rw [List.nodup_append]
    refine ⟨h, List.nodup_singleton cat, ?_⟩
    intro a ha hb
    rw [List.mem_singleton] at hb
    exact hc (hb ▸ ha)

/-- An accumulation step adds the amount to the value total when the key
list is duplicate free. -/
theorem sumAmounts_addAmount (m : List (String × ℚ)) (cat : String) (amt : ℚ)
    (hnd : (m.map Prod.fst).Nodup) :
    sumAmounts (addAmount m cat amt) = sumAmounts m + amt := by
  unfold addAmount
  by_cases h : m.any (fun p => p.1 == cat) = true
  · rw [if_pos h]
    obtain ⟨p0, hp0, hb0⟩ := List.any_eq_true.mp h
    have hex : ∃ p ∈ m, p.1 = cat := ⟨p0, hp0, beq_iff_eq.mp hb0⟩
    clear h hp0 hb0 p0
    induction m with
    | nil => simp at hex
    | cons p t ih =>
      rw [List.map_cons, List.nodup_cons] at hnd
      by_cases hp : p.1 = cat
      · have htail : t.map (fun q => if q.1 == cat then (q.1, q.2 + amt) else q) = t := by
          have hq : ∀ q ∈ t, (if q.1 == cat then (q.1, q.2 + amt) else q) = q := by
            intro q hqt
            have hqf : (q.1 == cat) = false := by
              rw [beq_eq_false_iff_ne]
              intro he
              have hmm : p.1 ∈ List.map Prod.fst t := by
                rw [hp, ← he]
                exact List.mem_map.mpr ⟨q, hqt, rfl⟩
              exact hnd.1 hmm
            simp [hqf]
          rw [List.map_congr_left hq, List.map_id']
        rw [List.map_cons, htail]
        have hpb : (p.1 == cat) = true := beq_iff_eq.mpr hp
        rw [hpb]
        simp only [if_true]
        unfold sumAmounts
        simp only [List.map_cons, List.sum_cons]
        ring
      · have hfp : (p.1 == cat) = false := beq_eq_false_iff_ne.mpr hp
        have h2 : ∃ q ∈ t, q.1 = cat := by
          obtain ⟨q, hq, he⟩ := hex
          rcases List.mem_cons.mp hq with rfl | hqt
          · exact absurd he hp
          · exact ⟨q, hqt, he⟩
        have ht := ih hnd.2 h2
        rw [List.map_cons, hfp]
        simp only [Bool.false_eq_true, if_false]
        unfold sumAmounts at ht ⊢
        simp only [List.map_cons, List.sum_cons, ht]
        ring
  · rw [if_neg h]
    unfold sumAmounts
    rw [List.map_append, List.sum_append]
    simp

/-- Folding records into a duplicate-free mapping keeps it duplicate free
and grows the value total by the records amounts. -/
theorem amountTotals_fold_sum (l : List Expense) :
    ∀ m : List (String × ℚ), (m.map Prod.fst).Nodup →
      ((l.foldl (fun m exp => addAmount m (bucketOf exp) exp.amount) m).map Prod.fst).Nodup
      ∧ sumAmounts (l.foldl (fun m exp => addAmount m (bucketOf exp) exp.amount) m)
          = sumAmounts m + (l.map Expense.amount).sum := by
  induction l with
  | nil =>
    intro m h
    exact ⟨h, by simp⟩
  | cons e t ih =>
    intro m h
    have hstep := addAmount_nodup m (bucketOf e) e.amount h
    obtain ⟨ihn, ihs⟩ := ih (addAmount m (bucketOf e) e.amount) hstep
    refine ⟨by rw [List.foldl_cons]; exact ihn, ?_⟩
    rw [List.foldl_cons, ihs, sumAmounts_addAmount m (bucketOf e) e.amount h,
      List.map_cons, List.sum_cons]
    ring

/-- Searching an accumulation-updated mapping is searching the original one
and updating the found entry, since the update keeps every key. -/
theorem find?_addAmount_map (m : List (String × ℚ)) (c cat : String) (amt : ℚ) :
    ((m.map fun p => if p.1 == cat then (p.1, p.2 + amt) else p).find? fun p => p.1 == c)
      = (m.find? fun p => p.1 == c).map fun p => if p.1 == cat then (p.1, p.2 + amt) else p := by
  induction m with
  | nil => rfl
  | cons p t ih =>
    simp only [List.map_cons, List.find?_cons]
    have hfst : (if p.1 == cat then (p.1, p.2 + amt) else p).1 = p.1 := by
      by_cases hc : p.1 = cat <;> simp [hc]
    rw [hfst]
    cases hpc : (p.1 == c) with
    | true => simp
    | false => simpa using ih

/-- One accumulation step adds the amount to the bucket of the inserted key
and leaves every other bucket total unchanged. -/
theorem lookupAmount_addAmount (m : List (String × ℚ)) (cat c : String) (amt : ℚ) :
    lookupAmount (addAmount m cat amt) c
      = lookupAmount m c + if c = cat then amt else 0 := by
  unfold addAmount lookupAmount
  by_cases h : m.any (fun p => p.1 == cat) = true
  · rw [if_pos h, find?_addAmount_map]
    by_cases hc : c = cat
    · subst hc
      obtain ⟨p0, hp0, hb0⟩ := List.any_eq_true.mp h
      have hsome : (m.find? fun p => p.1 == c).isSome = true :=
        List.find?_isSome.mpr ⟨p0, hp0, hb0⟩
      obtain ⟨p, hp⟩ := Option.isSome_iff_exists.mp hsome
      rw [hp]
      have hpc0 := List.find?_some hp
      have hpc : (p.1 == c) = true := hpc0
      simp [beq_iff_eq.mp hpc]
    · cases hp : m.find? fun p => p.1 == c with
      | none => simp [hc]
      | some p =>
        have hpc0 := List.find?_some hp
        have hpc : p.1 = c := beq_iff_eq.mp hpc0
        have hpf : (p.1 == cat) = false :=
          beq_eq_false_iff_ne.mpr (by rw [hpc]; exact hc)
        simp [beq_eq_false_iff_ne.mp hpf, hc]
  · have hall : ∀ p ∈ m, (p.1 == cat) = false := by
      intro p hp
      rw [Bool.eq_false_iff]
      intro hb
      exact h (List.any_eq_true.mpr ⟨p, hp, hb⟩)
    rw [if_neg h, List.find?_append]
    by_cases hc : c = cat
    · subst hc
      have hnone : (m.find? fun p => p.1 == c) = none :=
        List.find?_eq_none.mpr (fun p hp => by simp [hall p hp])
      rw [hnone]
      simp
    · cases hp : m.find? fun p => p.1 == c with
      | none =>
        have hne : (cat == c) = false := beq_eq_false_iff_ne.mpr (fun hh => hc hh.symm)
        simp [hne, hc]
      | some p => simp [hc]

/-- Folding records into a mapping grows the bucket of key c by exactly the
amounts of the folded records bucketed at c. -/
theorem lookupAmount_fold (c : String) (l : List Expense) :
    ∀ m : List (String × ℚ),
      lookupAmount (l.foldl (fun m exp => addAmount m (bucketOf exp) exp.amount) m) c
        = lookupAmount m c + ((l.filter fun e => bucketOf e == c).map Expense.amount).sum := by
  induction l with
  | nil => intro m; simp
  | cons e t ih =>
    intro m
    rw [List.foldl_cons, ih, lookupAmount_addAmount, List.filter_cons]
    by_cases hbc : c = bucketOf e
    · have hb : (bucketOf e == c) = true := beq_iff_eq.mpr hbc.symm
      simp only [hb, if_true, List.map_cons, List.sum_cons, if_pos hbc]
      ring
    · have hb : (bucketOf e == c) = false :=
        beq_eq_false_iff_ne.mpr (fun hh => hbc hh.symm)
      simp only [hb, Bool.false_eq_true, if_false, if_neg hbc]
      ring

/-- The key list of the accumulated mapping is the bucket-key sequence folded
with first-appearance insertion. -/
theorem amountTotals_fold_map_fst (l : List Expense) :
    ∀ m : List (String × ℚ),
      (l.foldl (fun m exp => addAmount m (bucketOf exp) exp.amount) m).map Prod.fst
        = (l.map bucketOf).foldl (fun acc c => if c ∈ acc then acc else acc ++ [c])
            (m.map Prod.fst) := by
  induction l with
  | nil => intro m; rfl
  | cons e t ih =>
    intro m
    rw [List.foldl_cons, List.map_cons, List.foldl_cons, ih, addAmount_map_fst]

/-- When no folded record has an array-index bucket key and the accumulator
has none either, the accumulated mapping has none. -/
theorem fold_keys_not_index (l : List Expense) :
    ∀ m : List (String × ℚ),
      (∀ e ∈ l, isArrayIndexKey (bucketOf e) = false) →
      (∀ p ∈ m, isArrayIndexKey p.1 = false) →
      ∀ p ∈ l.foldl (fun m exp => addAmount m (bucketOf exp) exp.amount) m,
        isArrayIndexKey p.1 = false := by
  induction l with
  | nil => intro m _ hm p hp; exact hm p hp
  | cons e t ih =>
    intro m hl hm
    rw [List.foldl_cons]
    refine ih _ (fun x hx => hl x (List.mem_cons_of_mem _ hx)) ?_
    intro p hp
    rcases mem_addAmount_key m (bucketOf e) e.amount p hp with hk | hk
    · obtain ⟨q, hq, he⟩ := List.mem_map.mp hk
      rw [← he]
      exact hm q hq
    · rw [hk]
      exact hl e (List.mem_cons_self e t)


/-! ### Object-model lifting lemmas -/

/-- Updating entries of a key that none of them bears changes nothing. -/
theorem map_set_no_match (o : JsObject) (key : String) (v : JsValue)
    (h : ∀ p ∈ o, (p.1 == key) = false) :
    (o.map fun p => if p.1 == key then (p.1, v) else p) = o := by
  have hq : ∀ p ∈ o, (if p.1 == key then (p.1, v) else p) = p := by
    intro p hp
    rw [h p hp]
    simp
  rw [List.map_congr_left hq, List.map_id']

/-- Assignment to an absent ordinary key appends the property. -/
theorem setProp_absent (o : JsObject) (key : String) (v : JsValue)
    (hk : (key == "__proto__") = false)
    (h : o.any (fun p => p.1 == key) = false) :
    setProp o key v = o ++ [(key, v)] := by
  unfold setProp
  rw [hk, h]
  simp

/-- Assignment to a present ordinary key overwrites it in place. -/
theorem setProp_present (o : JsObject) (key : String) (v : JsValue)
    (hk : (key == "__proto__") = false)
    (h : o.any (fun p => p.1 == key) = true) :
    setProp o key v = o.map fun p => if p.1 == key then (p.1, v) else p := by
  unfold setProp
  rw [hk, h]
  simp

/-- Searching a lifted bucket list finds the lifted entry. -/
theorem liftNum_find? (m : List (String × ℚ)) (key : String) :
    (liftNum m).find? (fun p => p.1 == key)
      = (m.find? (fun p => p.1 == key)).map fun p => (p.1, JsValue.num p.2) := by
  induction m with
  | nil => rfl
  | cons p t ih =>
    simp only [liftNum, List.map_cons, List.find?_cons]
    cases hpc : (p.1 == key) with
    | true => simp
    | false => simpa [liftNum] using ih

/-- Lifting preserves key membership. -/
theorem liftNum_any (m : List (String × ℚ)) (key : String) :
    (liftNum m).any (fun p => p.1 == key) = m.any (fun p => p.1 == key) := by
  induction m with
  | nil => rfl
  | cons p t ih =>
    simp only [liftNum, List.map_cons, List.any_cons] at ih ⊢
    rw [ih]

/-- Lifting preserves the key list. -/
theorem liftNum_map_fst (m : List (String × ℚ)) :
    (liftNum m).map Prod.fst = m.map Prod.fst := by
  unfold liftNum
  rw [List.map_map]
  rfl

/-- Reading an absent key that does not collide with the prototype chain
gives undefined. -/
theorem getProp_lift_none (m : List (String × ℚ)) (key : String)
    (hproto : (key == "__proto__") = false)
    (hfn : protoFnNames.contains key = false)
    (hfind : m.find? (fun p => p.1 == key) = none) :
    getProp (liftNum m) key = .undefined := by
  unfold getProp
  rw [liftNum_find?, hfind, hproto, hfn]
  simp

/-- Reading a present key gives its numeric own value. -/
theorem getProp_lift_some (m : List (String × ℚ)) (key : String) (p : String × ℚ)
    (hfind : m.find? (fun p => p.1 == key) = some p) :
    getProp (liftNum m) key = .own (.num p.2) := by
  unfold getProp
  rw [liftNum_find?, hfind]
  rfl

/-- Overwriting the sole entry of a key with the incremented value is the
lifted arithmetic update. -/
theorem setProp_update_lift (m : List (String × ℚ)) (cat : String) (p : String × ℚ)
    (amt : ℚ) (huniq : ∀ q ∈ m, (q.1 == cat) = true → q = p) :
    ((liftNum m).map fun q => if q.1 == cat then (q.1, JsValue.num (p.2 + amt)) else q)
      = liftNum (m.map fun q => if q.1 == cat then (q.1, q.2 + amt) else q) := by
  unfold liftNum
  rw [List.map_map, List.map_map]
  apply List.map_congr_left
  intro q hq
  by_cases hk : q.1 = cat
  · have hqp : q = p := huniq q hq (beq_iff_eq.mpr hk)
    have hpc : p.1 = cat := by rw [← hqp]; exact hk
    simp [Function.comp, hk, hqp, hpc]
  · simp [Function.comp, hk]

/-- On a key that does not collide with an Object.prototype property, one
forEach step on the lifted numeric object is the arithmetic accumulation
step, lifted (keys assumed duplicate free, as object keys are). -/
theorem addToCategory_lift (m : List (String × ℚ)) (cat : String) (amt : ℚ)
    (hsafe : isProtoProperty cat = false)
    (hnd : (m.map Prod.fst).Nodup) :
    addToCategory (liftNum m) cat amt = liftNum (addAmount m cat amt) := by
  unfold isProtoProperty at hsafe
  obtain ⟨hproto, hfn⟩ := Bool.or_eq_false_iff.mp hsafe
  unfold addToCategory
  cases hfind : m.find? (fun p => p.1 == cat) with
  | none =>
    have hany : m.any (fun p => p.1 == cat) = false := by
      rw [Bool.eq_false_iff]
      intro hc
      obtain ⟨p, hp, hb⟩ := List.any_eq_true.mp hc
      rw [List.find?_eq_none] at hfind
      exact hfind p hp hb
    have hanyL : (liftNum m).any (fun p => p.1 == cat) = false := by
      rw [liftNum_any, hany]
    have hnomatch : ∀ p ∈ liftNum m, (p.1 == cat) = false := by
      intro p hp
      rw [Bool.eq_false_iff]
      exact List.any_eq_false.mp hanyL p hp
    rw [getProp_lift_none m cat hproto hfn hfind]
    simp only [truthy, Bool.false_eq_true, if_false]
    rw [setProp_absent _ _ _ hproto hanyL]
    have hget2 : getProp (liftNum m ++ [(cat, JsValue.num 0)]) cat = .own (.num 0) := by
      unfold getProp
      rw [List.find?_append, liftNum_find?, hfind]
      simp
    rw [hget2]
    simp only [jsAdd]
    have hany2 : (liftNum m ++ [(cat, JsValue.num 0)]).any (fun p => p.1 == cat) = true := by
      rw [List.any_append]
      simp
    rw [setProp_present _ _ _ hproto hany2, List.map_append,
      map_set_no_match (liftNum m) cat _ hnomatch]
    have happ : ([((cat : String), JsValue.num 0)].map
        fun p => if p.1 == cat then (p.1, JsValue.num (0 + amt)) else p)
        = [(cat, JsValue.num (0 + amt))] := by
      simp
    rw [happ, zero_add]
    unfold addAmount
    rw [hany]
    simp [liftNum, List.map_append]
  | some p =>
    have hpmem := List.mem_of_find?_eq_some hfind
    have hkey0 := List.find?_some hfind
    have hkey : (p.1 == cat) = true := hkey0
    have hany : m.any (fun p => p.1 == cat) = true :=
      List.any_eq_true.mpr ⟨p, hpmem, hkey⟩
    have hanyL : (liftNum m).any (fun p => p.1 == cat) = true := by
      rw [liftNum_any]
      exact hany
    have huniq : ∀ q ∈ m, (q.1 == cat) = true → q = p := by
      intro q hq hqk
      exact List.inj_on_of_nodup_map hnd hq hpmem
        (by rw [beq_iff_eq.mp hqk, beq_iff_eq.mp hkey])
    rw [getProp_lift_some m cat p hfind]
    unfold addAmount
    rw [hany]
    simp only [if_true]
    by_cases hz : p.2 = 0
    · have htr : truthy (.own (.num p.2)) = false := by
        simp [truthy, hz]
      rw [htr]
      simp only [Bool.false_eq_true, if_false]
      rw [setProp_present _ _ _ hproto hanyL]
      have hm1 : ((liftNum m).map fun q => if q.1 == cat then (q.1, JsValue.num 0) else q)
          = liftNum m := by
        have hq : ∀ q ∈ liftNum m,
            (if q.1 == cat then (q.1, JsValue.num 0) else q) = q := by
          intro q hq0
          obtain ⟨x, hx, hxe⟩ := List.mem_map.mp hq0
          subst hxe
          by_cases hk : x.1 = cat
          · have hxp : x = p := huniq x hx (beq_iff_eq.mpr hk)
            simp [hk, hxp, hz]
          · simp [hk]
        rw [List.map_congr_left hq, List.map_id']
      rw [hm1, getProp_lift_some m cat p hfind]
      simp only [jsAdd]
      rw [setProp_present _ _ _ hproto hanyL]
      exact setProp_update_lift m cat p amt huniq
    · have htr : truthy (.own (.num p.2)) = true := by
        simp [truthy, hz]
      rw [htr]
      simp only [if_true]
      rw [getProp_lift_some m cat p hfind]
      simp only [jsAdd]
      rw [setProp_present _ _ _ hproto hanyL]
      exact setProp_update_lift m cat p amt huniq

/-- Folding safe-keyed records over a lifted accumulator stays lifted. -/
theorem fold_lift (l : List Expense) :
    ∀ m : List (String × ℚ),
      (∀ e ∈ l, isProtoProperty (bucketOf e) = false) →
      (m.map Prod.fst).Nodup →
      l.foldl (fun m exp => addToCategory m (bucketOf exp) exp.amount) (liftNum m)
        = liftNum (l.foldl (fun m exp => addAmount m (bucketOf exp) exp.amount) m) := by
  induction l with
  | nil => intro m _ _; rfl
  | cons e t ih =>
    intro m hl hnd
    rw [List.foldl_cons, List.foldl_cons,
      addToCategory_lift m (bucketOf e) e.amount (hl e (List.mem_cons_self e t)) hnd]
    exact ih _ (fun x hx => hl x (List.mem_cons_of_mem _ hx)) (addAmount_nodup m _ _ hnd)

/-- On inputs whose bucket keys do not collide with Object.prototype, the
totals object is the arithmetic bucket list with numeric values. -/
theorem categoryTotals_lift (l : List Expense)
    (h : ∀ e ∈ l, isProtoProperty (bucketOf e) = false) :
    categoryTotals l = liftNum (amountTotals l) := by
  unfold categoryTotals amountTotals
  exact fold_lift l [] h (by simp)

/-- Bucket reads of a lifted bucket list are the arithmetic reads. -/
theorem byCategoryAmount_lift (m : List (String × ℚ)) (c : String) :
    byCategoryAmount (liftNum m) c = lookupAmount m c := by
  unfold byCategoryAmount lookupAmount
  rw [liftNum_find?]
  cases m.find? (fun p => p.1 == c) with
  | none => rfl
  | some p => rfl

/-- The numeric bucket sum of a lifted bucket list is the arithmetic sum. -/
theorem sumValues_lift (m : List (String × ℚ)) :
    sumValues (liftNum m) = sumAmounts m := by
  unfold sumValues sumAmounts liftNum
  rw [List.map_map]
  rfl

/-- The concrete record list of the aggregation test case. -/
def aggExample : List Expense :=
  [⟨1, 12.50, "Food", none, some "2024-03-10"⟩,
   ⟨2, 7.25, "Food", none, some "2024-03-11"⟩,
   ⟨3, 20.00, "Transport", none, some "2024-03-12"⟩]

/-- The record list refuting claim C6 as stated: a category colliding with
the __proto__ accessor. -/
def protoCategoryExample : List Expense :=
  [⟨1, 12.5, "__proto__", none, some "2024-03-10"⟩]

/-- Counterexample to claim C6 as stated: the assignment to the __proto__
bucket runs the inherited accessor and creates no own property, so the
record with category __proto__ and amount 12.5 produces an empty totals
object, and its by_category value reads 0 instead of the sum of the
amounts bearing the category. -/
theorem aggregation_proto_counterexample :
    totalSpending protoCategoryExample = 12.5
    ∧ categoryTotals protoCategoryExample = []
    ∧ byCategoryAmount (categoryTotals protoCategoryExample) "__proto__" = 0
    ∧ byCategoryAmount (categoryTotals protoCategoryExample) "__proto__"
        ≠ ((protoCategoryExample.filter fun e => e.category == "__proto__").map
            Expense.amount).sum :=
  ⟨by decide, by decide, by decide, by decide⟩

/-- Claim C6 as amended: for record lists obeying the persisted-record
invariant (non-empty categories) whose categories do not collide with
Object.prototype properties, the aggregate total is the sum of the amounts
(0 on the empty input, whose mapping is empty), each bucket holds the sum
of the amounts of the records bearing its category, and the concrete
three-record case yields 39.75 with buckets Food 19.75 and Transport 20.00.
A __proto__ category creates no bucket at all, and a category naming an
inherited prototype function concatenates text instead of summing. -/
theorem aggregation_correct (l : List Expense)
    (hcat : ∀ e ∈ l, e.category ≠ "")
    (hsafe : ∀ e ∈ l, isProtoProperty (bucketOf e) = false) :
    totalSpending l = (l.map Expense.amount).sum
    ∧ (∀ c : String, byCategoryAmount (categoryTotals l) c
        = ((l.filter fun e => e.category == c).map Expense.amount).sum)
    ∧ totalSpending [] = 0
    ∧ categoryTotals ([] : List Expense) = []
    ∧ totalSpending aggExample = 39.75
    ∧ categoryTotals aggExample
        = [("Food", JsValue.num 19.75), ("Transport", JsValue.num 20.00)] := by
  refine ⟨totalSpending_eq_sum l, ?_, rfl, rfl, by decide, by decide⟩
  intro c
  rw [categoryTotals_lift l hsafe, byCategoryAmount_lift]
  unfold amountTotals
  rw [lookupAmount_fold c l []]
  have hfc : l.filter (fun e => bucketOf e == c) = l.filter (fun e => e.category == c) :=
    List.filter_congr (fun e he => by simp [bucketOf, hcat e he])
  simp [lookupAmount, hfc]

/-- Witness for claim C6 as amended, at the concrete three-record case. -/
theorem aggregation_correct_w :
    totalSpending aggExample = 39.75
    ∧ byCategoryAmount (categoryTotals aggExample) "Food" = 19.75 := by
  have h := aggregation_correct aggExample (by decide) (by decide)
  refine ⟨h.2.2.2.2.1, ?_⟩
  rw [h.2.1 "Food"]
  decide

/-- The record list refuting claim C10 as stated: a category colliding with
the __proto__ accessor. -/
def protoTotalExample : List Expense :=
  [⟨1, 7.5, "__proto__", none, some "2024-03-10"⟩]

/-- Counterexample to claim C10 as stated: a record categorised __proto__
keeps its amount in the overall total but creates no bucket, so the sum of
the per-category subtotals misses it. -/
theorem total_subtotals_proto_counterexample :
    totalSpending protoTotalExample = 7.5
    ∧ categoryTotals protoTotalExample = []
    ∧ sumValues (categoryTotals protoTotalExample) = 0
    ∧ totalSpending protoTotalExample ≠ sumValues (categoryTotals protoTotalExample) :=
  ⟨by decide, by decide, by decide, by decide⟩

/-- Claim C10 as amended: when no bucket key collides with an
Object.prototype property, the overall total of a filtered record list
equals the sum of its per-category subtotals. -/
theorem total_matches_by_category (filteredExpenses : List Expense)
    (h : ∀ e ∈ filteredExpenses, isProtoProperty (bucketOf e) = false) :
    totalSpending filteredExpenses = sumValues (categoryTotals filteredExpenses) := by
  rw [categoryTotals_lift filteredExpenses h, sumValues_lift, totalSpending_eq_sum]
  unfold amountTotals
  rw [(amountTotals_fold_sum filteredExpenses [] (by simp)).2]
  simp [sumAmounts]

/-- Witness for claim C10 as amended, at the concrete three-record list. -/
theorem total_matches_by_category_w :
    totalSpending aggExample = sumValues (categoryTotals aggExample) :=
  total_matches_by_category aggExample (by decide)

/-- The concrete record list refuting claim C9 as stated: the second
category is the string 2, an array-index property key. -/
def numericCategoryExample : List Expense :=
  [⟨1, 1, "Food", none, some "2024-03-10"⟩,
   ⟨2, 2, "2", none, some "2024-03-11"⟩]

/-- A record list whose second category collides with the __proto__
accessor, so its bucket never becomes an own property. -/
def protoOrderExample : List Expense :=
  [⟨1, 1, "Food", none, some "2024-03-10"⟩,
   ⟨2, 2, "__proto__", none, some "2024-03-11"⟩]

/-- Counterexample to claim C9 as stated: with categories Food then 2 the JS
object presents the array-index key 2 first, not in insertion order; and
with categories Food then __proto__ the second category is dropped from the
presentation entirely, since its assignment creates no own property. -/
theorem category_order_counterexample :
    (jsObjectEntries (categoryTotals numericCategoryExample)).map Prod.fst = ["2", "Food"]
    ∧ firstAppearanceOrder (numericCategoryExample.map bucketOf) = ["Food", "2"]
    ∧ (jsObjectEntries (categoryTotals numericCategoryExample)).map Prod.fst
        ≠ firstAppearanceOrder (numericCategoryExample.map bucketOf)
    ∧ (jsObjectEntries (categoryTotals protoOrderExample)).map Prod.fst = ["Food"]
    ∧ firstAppearanceOrder (protoOrderExample.map bucketOf) = ["Food", "__proto__"] :=
  ⟨by decide, by decide, by decide, by decide, by decide⟩

/-- Claim C9 as amended: when no category of the input is an array-index
string (canonical decimal below 2^32 - 1) and none collides with an
Object.prototype property, the presented category sequence is the insertion
order of the first appearance of each category; an array-index category is
instead presented first in ascending numeric order, and a __proto__
category is omitted. -/
theorem category_presentation_insertion_order (l : List Expense)
    (hidx : ∀ e ∈ l, isArrayIndexKey (bucketOf e) = false)
    (hsafe : ∀ e ∈ l, isProtoProperty (bucketOf e) = false) :
    (jsObjectEntries (categoryTotals l)).map Prod.fst
      = firstAppearanceOrder (l.map bucketOf) := by
  rw [categoryTotals_lift l hsafe]
  have hkeys : ∀ p ∈ amountTotals l, isArrayIndexKey p.1 = false := by
    unfold amountTotals
    exact fold_keys_not_index l [] hidx (by simp)
  have hkeysL : ∀ p ∈ liftNum (amountTotals l), isArrayIndexKey p.1 = false := by
    intro p hp
    obtain ⟨q, hq, he⟩ := List.mem_map.mp hp
    have hfst : p.1 = q.1 := by rw [← he]
    rw [hfst]
    exact hkeys q hq
  unfold jsObjectEntries
  have h1 : (liftNum (amountTotals l)).filter (fun p => isArrayIndexKey p.1) = [] :=
    List.filter_eq_nil_iff.mpr (fun p hp => by simp [hkeysL p hp])
  have h2 : (liftNum (amountTotals l)).filter (fun p => !isArrayIndexKey p.1)
      = liftNum (amountTotals l) :=
    List.filter_eq_self.mpr (fun p hp => by simp [hkeysL p hp])
  rw [h1, h2]
  rw [show sortIndexKeys ([] : JsObject) = [] from rfl, List.nil_append]
  rw [liftNum_map_fst]
  unfold amountTotals
  exact amountTotals_fold_map_fst l []

/-- Witness for claim C9 as amended, at the Food and Transport record list. -/
theorem category_presentation_insertion_order_w :
    (jsObjectEntries (categoryTotals aggExample)).map Prod.fst
      = firstAppearanceOrder (aggExample.map bucketOf) :=
  category_presentation_insertion_order aggExample (by decide) (by decide)

/-- The record refuting claim C5 as stated: a date string outside the fixed
stored YYYY-MM-DD format that the platform Date parser nevertheless
accepts. -/
def isoDateTimeRecord : Expense :=
  ⟨9, 5, "Food", none, some "2024-03-15T12:00:00"⟩

/-- Counterexample to claim C5 as stated: the date string
2024-03-15T12:00:00 is malformed for the fixed storage format, yet new Date
parses it (ECMA date-time string format), so the record is classified into
WEEK and MONTH instead of being excluded from them. -/
theorem malformed_date_counterexample :
    parseStoredDate "2024-03-15T12:00:00" = none
    ∧ jsParseDate "2024-03-15T12:00:00" = some 1710504000000
    ∧ isoDateTimeRecord ∈ getFilteredExpenses [isoDateTimeRecord] .WEEK refMarch15
    ∧ isoDateTimeRecord ∈ getFilteredExpenses [isoDateTimeRecord] .MONTH refMarch15 :=
  ⟨rfl, by decide, by decide, by decide⟩
